import Mathlib

/-!
Verification of the Cortex-MCP repository.

This file embeds the code generator (`codegen/generator.py`), the runtime
server (`server/main.py`) and the documentation generator
(`generate_docs.py`) shallowly in Lean, and proves or refutes the claims
made by the natural-language specification about them.

Layout: all definitions first, then all theorems.
-/

namespace CortexMCP

/-! ## Python dict model

Python dicts are insertion-ordered with unique keys; we model them as
association lists.  `dictGet` is `d.get(k)`, `dictInsert` is `d[k] = v`
(replace in place when the key already exists, append otherwise), and
`dictUpdate` is `d.update(e)` (insert every entry of `e`, in order, into
`d`). -/

def dictGet {α : Type} : List (String × α) → String → Option α
  | [], _ => none
  | p :: d, k => if p.1 == k then some p.2 else dictGet d k

def dictInsert {α : Type} : List (String × α) → String → α → List (String × α)
  | [], k, v => [(k, v)]
  | p :: d, k, v => if p.1 == k then (k, v) :: d else p :: dictInsert d k v

def dictUpdate {α : Type} (d e : List (String × α)) : List (String × α) :=
  e.foldl (fun acc p => dictInsert acc p.1 p.2) d

/-! ## Name normalizer (codegen/generator.py, `to_snake_case`)

Python strings are sequences of code points; we model them as `List Nat`.
`to_snake_case` is

    s1 = re.sub("(.)([A-Z][a-z]+)", r"\x5c1_\x5c2", name)
    return re.sub("([a-z0-9])([A-Z])", r"\x5c1_\x5c2", s1).lower()

`sub1` and `sub2` embed the two substitutions: `re.sub` scans left to
right, replaces each non-overlapping match and resumes scanning right
after the end of the match; `.` matches any character except a newline
(code 10); `[a-z]+` is greedy; `_` is code 95.  `.lower()` is modelled on
the ASCII range (it never produces an ASCII capital on any input, which is
all the two patterns inspect). -/

def isUp (n : Nat) : Bool := decide (65 ≤ n ∧ n ≤ 90)

def isLow (n : Nat) : Bool := decide (97 ≤ n ∧ n ≤ 122)

def isDigitC (n : Nat) : Bool := decide (48 ≤ n ∧ n ≤ 57)

def toLowC (n : Nat) : Nat := if isUp n then n + 32 else n

def toUpC (n : Nat) : Nat := if isLow n then n - 32 else n

def sub1 : List Nat → List Nat
  | c :: u :: x :: t =>
    if c != 10 && isUp u && isLow x then
      c :: 95 :: u :: x :: (t.takeWhile isLow ++ sub1 (t.dropWhile isLow))
    else
      c :: sub1 (u :: x :: t)
  | c :: rest => c :: sub1 rest
  | [] => []
termination_by l => l.length
decreasing_by
  all_goals simp only [List.length_cons]
  · have h : (t.dropWhile isLow).length ≤ t.length := by
      induction t with
      | nil => simp
      | cons a s ih =>
        by_cases ha : isLow a
        · simp only [List.dropWhile, ha, List.length_cons]
          omega
        · simp [List.dropWhile, ha]
    omega
  · omega
  · omega

def sub2 : List Nat → List Nat
  | c1 :: c2 :: rest =>
    if (isLow c1 || isDigitC c1) && isUp c2 then
      c1 :: 95 :: c2 :: sub2 rest
    else
      c1 :: sub2 (c2 :: rest)
  | l => l

def to_snake_case (l : List Nat) : List Nat :=
  (sub2 (sub1 l)).map toLowC

/-- The code points of a Lean string literal, to write concrete inputs of
`to_snake_case` readably. -/
def strCodes (s : String) : List Nat := s.data.map Char.toNat

/-- `to_snake_case` on `String`, as used for the generated python argument
names (`param_name = to_snake_case(param["name"])`). -/
def snakeName (s : String) : String := ⟨(to_snake_case (strCodes s)).map Char.ofNat⟩

/-- Python `str.lower()` on the ASCII range, for strings. -/
def asciiLower (s : String) : String := ⟨s.data.map (fun c => Char.ofNat (toLowC c.toNat))⟩

/-- Python `str.upper()` on the ASCII range, for strings. -/
def asciiUpper (s : String) : String := ⟨s.data.map (fun c => Char.ofNat (toUpC c.toNat))⟩

/-! ## Runtime server (server/main.py) -/

/-- `mcp.types.TextContent(type="text", text=...)`. -/
structure TextContent where
  type : String
  text : String
deriving DecidableEq

/-- Outcome of an MCP request handler as seen by the transport layer:
either a normal (non-exceptional) result, or an exception that escaped the
handler and would terminate the protocol session. -/
inductive CallOutcome (α : Type) where
  | result : α → CallOutcome α
  | raised : String → CallOutcome α
deriving DecidableEq

/-- A generated tool handler: receives the arguments dict and either
returns content or raises an exception (modelled as `Except.error`). -/
def Handler (V : Type) : Type :=
  List (String × V) → Except String (List TextContent)

/-- `call_tool_handler` from `server/main.py`: look the tool name up in the
merged `TOOL_HANDLERS` dict (`if not handler:` is the `None` test, since a
function object is always truthy); an unknown name yields a normal
`TextContent` result; a found handler is awaited on `arguments or {}`, and
any exception it raises is caught and converted to an `"ERROR: "`-prefixed
text result.  The `_log` calls are best-effort stderr diagnostics with no
protocol effect and are not modelled. -/
def call_tool_handler {V : Type} (TOOL_HANDLERS : List (String × Handler V))
    (tool_name : String) (arguments : Option (List (String × V))) :
    CallOutcome (List TextContent) :=
  match dictGet TOOL_HANDLERS tool_name with
  | none => .result [⟨"text", "Unknown tool: " ++ tool_name⟩]
  | some handler =>
    match handler (arguments.getD []) with
    | .ok r => .result r
    | .error exc => .result [⟨"text", "ERROR: " ++ exc⟩]

/-- `mcp.server.lowlevel.helper_types.ReadResourceContents`. -/
structure ReadResourceContents where
  content : String
  mime_type : String
deriving DecidableEq

/-- `read_resource_handler` from `server/main.py`: `DOCS` maps resource
URIs (scanned once at startup) to file paths; an unknown URI raises
`ValueError(f"Unknown resource: {uri}")`, modelled as `Except.error`; a
known URI reads the file (`path.read_text`, modelled by the ambient file
system `fs`, which may itself raise) and wraps it as markdown content. -/
def read_resource_handler (DOCS : List (String × String))
    (fs : String → Except String String) (uri : String) :
    Except String (List ReadResourceContents) :=
  match dictGet DOCS uri with
  | none => .error ("Unknown resource: " ++ uri)
  | some path =>
    match fs path with
    | .ok text => .ok [⟨text, "text/markdown"⟩]
    | .error e => .error e

/-- The three parallel registries exported by a generated tools module
(`TOOL_HANDLERS`, `TOOL_SCHEMAS`, `TOOL_DESCRIPTIONS`). -/
structure ToolModule (H S : Type) where
  TOOL_HANDLERS : List (String × H)
  TOOL_SCHEMAS : List (String × S)
  TOOL_DESCRIPTIONS : List (String × String)
deriving DecidableEq

/-- The module list built inside `_merge_registries`: `[xsiam, xsoar]`,
plus `unified` when the optional import succeeded (`if unified:`). -/
def moduleList {H S : Type} (xsiam xsoar : ToolModule H S)
    (unified : Option (ToolModule H S)) : List (ToolModule H S) :=
  [xsiam, xsoar] ++ (match unified with | some u => [u] | none => [])

/-- The loop body of `_merge_registries`: `dict.update` of one module's
three registries into the three accumulator dicts. -/
def mergeStep {H S : Type} (acc m : ToolModule H S) : ToolModule H S :=
  ⟨dictUpdate acc.TOOL_HANDLERS m.TOOL_HANDLERS,
   dictUpdate acc.TOOL_SCHEMAS m.TOOL_SCHEMAS,
   dictUpdate acc.TOOL_DESCRIPTIONS m.TOOL_DESCRIPTIONS⟩

/-- `_merge_registries` from `server/main.py`. -/
def _merge_registries {H S : Type} (modules : List (ToolModule H S)) :
    ToolModule H S :=
  modules.foldl mergeStep ⟨[], [], []⟩

/-- Last-writer-wins reading of a tool name across the module list: the
handler bound by the last module that defines the name. -/
def lastBinding {H S : Type} (modules : List (ToolModule H S)) (k : String) :
    Option H :=
  modules.foldl
    (fun acc m =>
      match dictGet m.TOOL_HANDLERS k with
      | some v => some v
      | none => acc)
    none

/-! ## Documentation generator (generate_docs.py)

Python `needle in hay` on strings is the substring test; `hasSubL` checks
every suffix of the haystack for the needle as a prefix. -/

def hasSubL (needle : List Char) : List Char → Bool
  | [] => needle.isEmpty
  | a :: t => needle.isPrefixOf (a :: t) || hasSubL needle t

def hasSub (needle hay : String) : Bool := hasSubL needle.data hay.data

/-- The category branch of `categorize_xsiam_tools` for one tool: the
`if`/`elif` chain over `name = tool['name'].lower()`; the first branch also
consults `tool['description'].lower()`. -/
def categorize_xsiam_tool (name description : String) : String :=
  let n := asciiLower name
  if hasSub "xql" n || (hasSub "query" n && hasSub "xql" (asciiLower description)) then
    "XQL Queries"
  else if hasSub "incident" n then "Incidents"
  else if hasSub "alert" n then "Alerts"
  else if hasSub "endpoint" n || hasSub "agent" n then "Endpoints"
  else if ["host", "user", "ip_address", "ad_group", "ou_"].any (fun x => hasSub x n) then
    "Assets & Identity"
  else if hasSub "violation" n || hasSub "policy" n then "Policy & Compliance"
  else if hasSub "scan" n || hasSub "isolate" n || hasSub "unisolate" n
      || hasSub "quarantine" n || hasSub "restore" n then "Response Actions"
  else if hasSub "hash" n || hasSub "reputation" n || hasSub "ioc" n
      || hasSub "indicator" n || hasSub "bioc" n then "Threat Intelligence"
  else if hasSub "audit" n || hasSub "rbac" n || hasSub "role" n
      || hasSub "healthcheck" n then "Administration"
  else if hasSub "playbook" n then "Playbooks"
  else if hasSub "dashboard" n then "Dashboards"
  else if hasSub "script" n then "Scripts"
  else "Other Operations"

/-- The category branch of `categorize_xsoar_tools` for one tool. -/
def categorize_xsoar_tool (name : String) : String :=
  let n := asciiLower name
  if hasSub "script" n || hasSub "automation" n then "Automations & Scripts"
  else if hasSub "incident" n || hasSub "investigation" n then "Incidents & Investigations"
  else if hasSub "playbook" n then "Playbooks"
  else if hasSub "indicator" n || hasSub "ioc" n then "Indicators"
  else if hasSub "integration" n then "Integrations"
  else if hasSub "entry" n || hasSub "evidence" n then "Evidence & Entries"
  else if hasSub "user" n || hasSub "role" n || hasSub "api_key" n then "User Management"
  else if hasSub "classifier" n || hasSub "mapper" n || hasSub "layout" n
      || hasSub "content" n then "Content Management"
  else if hasSub "widget" n || hasSub "dashboard" n then "Dashboards & Widgets"
  else if hasSub "list" n && hasSub "get_list" n then "Lists"
  else "Other Operations"

/-- The category branch of `categorize_unified_tools` for one tool.  Note
the fall-through category in the source is `"Unified Operations"`, not
`"Other Operations"`. -/
def categorize_unified_tool (name : String) : String :=
  let n := asciiLower name
  if hasSub "incident" n then "Incidents"
  else if hasSub "script" n || hasSub "automation" n then "Automations & Scripts"
  else if hasSub "audit" n then "Logs & Audits"
  else "Unified Operations"

/-- First-matching-predicate evaluation of an ordered policy table, with a
fall-through category: the reference reading of the spec's "fixed ordered
set of keyword predicates ... first matching predicate wins". -/
def firstMatch (table : List ((String → Bool) × String)) (fallback : String)
    (n : String) : String :=
  match table.find? (fun p => p.1 n) with
  | some p => p.2
  | none => fallback

/-- The ordered policy table of `categorize_xsiam_tools`; its first
predicate also consults the tool description. -/
def xsiamPolicy (description : String) : List ((String → Bool) × String) :=
  [(fun n => hasSub "xql" n || (hasSub "query" n && hasSub "xql" (asciiLower description)),
    "XQL Queries"),
   (fun n => hasSub "incident" n, "Incidents"),
   (fun n => hasSub "alert" n, "Alerts"),
   (fun n => hasSub "endpoint" n || hasSub "agent" n, "Endpoints"),
   (fun n => ["host", "user", "ip_address", "ad_group", "ou_"].any (fun x => hasSub x n),
    "Assets & Identity"),
   (fun n => hasSub "violation" n || hasSub "policy" n, "Policy & Compliance"),
   (fun n => hasSub "scan" n || hasSub "isolate" n || hasSub "unisolate" n
      || hasSub "quarantine" n || hasSub "restore" n, "Response Actions"),
   (fun n => hasSub "hash" n || hasSub "reputation" n || hasSub "ioc" n
      || hasSub "indicator" n || hasSub "bioc" n, "Threat Intelligence"),
   (fun n => hasSub "audit" n || hasSub "rbac" n || hasSub "role" n
      || hasSub "healthcheck" n, "Administration"),
   (fun n => hasSub "playbook" n, "Playbooks"),
   (fun n => hasSub "dashboard" n, "Dashboards"),
   (fun n => hasSub "script" n, "Scripts")]

/-- The ordered policy table of `categorize_xsoar_tools`. -/
def xsoarPolicy : List ((String → Bool) × String) :=
  [(fun n => hasSub "script" n || hasSub "automation" n, "Automations & Scripts"),
   (fun n => hasSub "incident" n || hasSub "investigation" n, "Incidents & Investigations"),
   (fun n => hasSub "playbook" n, "Playbooks"),
   (fun n => hasSub "indicator" n || hasSub "ioc" n, "Indicators"),
   (fun n => hasSub "integration" n, "Integrations"),
   (fun n => hasSub "entry" n || hasSub "evidence" n, "Evidence & Entries"),
   (fun n => hasSub "user" n || hasSub "role" n || hasSub "api_key" n, "User Management"),
   (fun n => hasSub "classifier" n || hasSub "mapper" n || hasSub "layout" n
      || hasSub "content" n, "Content Management"),
   (fun n => hasSub "widget" n || hasSub "dashboard" n, "Dashboards & Widgets"),
   (fun n => hasSub "list" n && hasSub "get_list" n, "Lists")]

/-- The ordered policy table of `categorize_unified_tools`. -/
def unifiedPolicy : List ((String → Bool) × String) :=
  [(fun n => hasSub "incident" n, "Incidents"),
   (fun n => hasSub "script" n || hasSub "automation" n, "Automations & Scripts"),
   (fun n => hasSub "audit" n, "Logs & Audits")]

/-! ## Spec indexer -/

/-- An OpenAPI document as read by the indexer: `paths` maps route strings
to path items, which map HTTP-method strings to operation objects (kept
abstract as `α`). -/
structure OpenAPISpec (α : Type) where
  paths : List (String × List (String × α))

/-- Modelled from the spec: `find_operation_in_spec` itself is not among
the source files (only `tests/test_codegen.py` imports it from
`codegen.generator`); this definition follows spec section 4.2 -- lookup
of the route as an exact-string key under `paths`, then a
case-insensitive scan for the method among the path item's keys; on a
match, the operation object is returned augmented with the resolved
method uppercased; any miss is the not-found sentinel `none` (a normal
outcome, not an error). -/
def find_operation_in_spec {α : Type} (spec : OpenAPISpec α) (route method : String) :
    Option (α × String) :=
  match dictGet spec.paths route with
  | none => none
  | some pathItem =>
    match pathItem.find? (fun p => asciiLower p.1 == asciiLower method) with
    | none => none
    | some p => some (p.2, asciiUpper method)

/-! ## Synthesized handler parameter buckets (codegen/generator.py,
`generate_tool_function`)

`generate_tool_function` emits, for every declared parameter, the runtime
prologue

    if <snake(name)> is not None:
        path_params["<name>"] = <snake(name)>     # when in == "path"
        params["<name>"] = <snake(name)>          # when in == "query"
                                                  # (no line for any other in)

followed by the same pattern for request-body properties into `body`.
`handlerPrologue` is that prologue's runtime behavior on an arguments
dict: the three buckets `params` (query string), `body` (JSON body) and
`path_params` (URL template substitution) that feed the single
`client.request(method=..., url=..., params=params, json=body ...)` call.
There is no header bucket anywhere in the generated code. -/

/-- One declared OpenAPI parameter: its wire name and its `in` field
(`param.get("in", "query")` -- an absent `in` defaults to `"query"`). -/
structure OAParam where
  name : String
  inLoc : Option String
deriving DecidableEq

/-- The three request buckets built by the generated prologue. -/
structure RequestBuckets (V : Type) where
  params : List (String × V)
  body : List (String × V)
  path_params : List (String × V)
deriving DecidableEq

/-- Per-parameter step of the generated prologue. -/
def paramStep {V : Type} (args : List (String × V)) (st : RequestBuckets V)
    (p : OAParam) : RequestBuckets V :=
  match dictGet args (snakeName p.name) with
  | none => st
  | some v =>
    let loc := p.inLoc.getD "query"
    if loc == "path" then ⟨st.params, st.body, dictInsert st.path_params p.name v⟩
    else if loc == "query" then ⟨dictInsert st.params p.name v, st.body, st.path_params⟩
    else st

/-- Per-body-property step of the generated prologue. -/
def bodyStep {V : Type} (args : List (String × V)) (st : RequestBuckets V)
    (prop : String) : RequestBuckets V :=
  match dictGet args (snakeName prop) with
  | none => st
  | some v => ⟨st.params, dictInsert st.body prop v, st.path_params⟩

/-- The full generated prologue: parameters first, then body properties. -/
def handlerPrologue {V : Type} (parameters : List OAParam) (bodyProps : List String)
    (args : List (String × V)) : RequestBuckets V :=
  bodyProps.foldl (bodyStep args) (parameters.foldl (paramStep args) ⟨[], [], []⟩)

/-! ## Tool emission loop (codegen/generator.py, `generate_tools_file`) -/

/-- An operation object as inspected by the emission loop of
`generate_tools_file`: only `operation.get("operationId")` decides
emission (`summary`, `description`, `parameters` and `requestBody` only
shape the emitted text). -/
structure GOperation where
  operationId : Option String
deriving DecidableEq

/-- The fixed method list of the emission loop. -/
def httpMethods : List String := ["get", "post", "put", "patch", "delete"]

/-- The nested emission loop of `generate_tools_file`: for every entry of
`spec["paths"]` and every method of `httpMethods` defined in the path
item, the operation's code is appended to the file when and only when
`operation.get("operationId")` is truthy (present and non-empty); the
skip branch appends nothing and prints nothing.  Each emission is
recorded as `(operation_id, method, route)`. -/
def generate_tools_file_emitted
    (paths : List (String × List (String × GOperation))) :
    List (String × String × String) :=
  paths.flatMap (fun pi =>
    httpMethods.filterMap (fun m =>
      match dictGet pi.2 m with
      | none => none
      | some operation =>
        match operation.operationId with
        | none => none
        | some oid => if oid = "" then none else some (oid, m, pi.1)))

end CortexMCP

namespace CortexMCP

/-! ## Theorems -/

/-! ### Name normalizer lemmas -/

theorem isUp_toLowC (n : Nat) : isUp (toLowC n) = false := by
  unfold toLowC
  by_cases h : isUp n = true
  · simp only [h, if_true]
    simp only [isUp, decide_eq_true_eq] at h
    simp only [isUp, decide_eq_false_iff_not]
    omega
  · simp only [Bool.not_eq_true] at h
    simp [h]

theorem sub1_eq_self {l : List Nat} (h : ∀ n ∈ l, isUp n = false) : sub1 l = l := by
  induction l using sub1.induct with
  | case1 c u x t hc ih =>
    exfalso
    simp only [Bool.and_eq_true] at hc
    have hu := h u (by simp)
    rw [hu] at hc
    simp at hc
  | case2 c u x t hc ih =>
    have ht : ∀ n ∈ u :: x :: t, isUp n = false := fun n hn => h n (List.mem_cons_of_mem c hn)
    conv_lhs => rw [sub1.eq_def]
    simp only [if_neg hc]
    rw [ih ht]
  | case3 c rest hne ih =>
    have ht : ∀ n ∈ rest, isUp n = false := fun n hn => h n (by simp [hn])
    match rest, hne with
    | [], _ => simp [sub1]
    | [a], _ => simp [sub1, ih ht]
    | a :: b :: r, hne => exact absurd rfl (hne a b r)
  | case4 => simp [sub1]

theorem sub2_eq_self {l : List Nat} (h : ∀ n ∈ l, isUp n = false) : sub2 l = l := by
  induction l using sub2.induct with
  | case1 c1 c2 rest hc ih =>
    exfalso
    simp only [Bool.and_eq_true] at hc
    have hu := h c2 (by simp)
    rw [hu] at hc
    simp at hc
  | case2 c1 c2 rest hc ih =>
    have ht : ∀ n ∈ c2 :: rest, isUp n = false := fun n hn => h n (List.mem_cons_of_mem c1 hn)
    conv_lhs => rw [sub2.eq_def]
    simp only [if_neg hc]
    rw [ih ht]
  | case3 l hne =>
    match l, hne with
    | [], _ => simp [sub2]
    | [a], _ => simp [sub2]
    | a :: b :: r, hne => exact absurd rfl (hne a b r)

theorem map_toLowC_eq_self {l : List Nat} (h : ∀ n ∈ l, isUp n = false) :
    l.map toLowC = l := by
  induction l with
  | nil => rfl
  | cons a t ih =>
    have ha := h a (by simp)
    have ht : ∀ n ∈ t, isUp n = false := fun n hn => h n (by simp [hn])
    simp only [List.map_cons, ih ht]
    unfold toLowC
    simp [ha]

theorem isUp_of_mem_to_snake_case {l : List Nat} {n : Nat}
    (hn : n ∈ to_snake_case l) : isUp n = false := by
  unfold to_snake_case at hn
  rcases List.mem_map.mp hn with ⟨m, _, rfl⟩
  exact isUp_toLowC m

/-- Claim C3: `to_snake_case` is a pure, total Lean function (determinism
and totality are inherent in the embedding), and it is idempotent: its
output contains no ASCII capitals, so neither substitution pattern can
match on it again and lowercasing it again is the identity.  Quantified
over every code-point sequence, i.e. every Python string. -/
theorem to_snake_case_idem (l : List Nat) :
    to_snake_case (to_snake_case l) = to_snake_case l := by
  have h : ∀ n ∈ to_snake_case l, isUp n = false := fun n hn => isUp_of_mem_to_snake_case hn
  conv_lhs => rw [to_snake_case]
  rw [sub1_eq_self h, sub2_eq_self h, map_toLowC_eq_self h]

/-- Claim C2 (code bug): evaluating the two regex substitutions of
`to_snake_case` at the three inputs named by the spec.  The camel-case
examples hold, but `"create-Widget/Item"` maps to `"create-_widget/_item"`,
not `"create_widget_item"`: neither pattern ever replaces a `-`, `/` or
space, contradicting the spec and the repository's own test
`test_to_snake_case_handles_mixed_names`. -/
theorem to_snake_case_separator_divergence :
    to_snake_case (strCodes "ListIncidents") = strCodes "list_incidents"
    ∧ to_snake_case (strCodes "HTTPResponse2XX") = strCodes "http_response2_xx"
    ∧ to_snake_case (strCodes "create-Widget/Item") = strCodes "create-_widget/_item"
    ∧ to_snake_case (strCodes "create-Widget/Item") ≠ strCodes "create_widget_item" := by
  refine ⟨?_, ?_, ?_, ?_⟩ <;>
    simp [to_snake_case, strCodes, sub1, sub2, toLowC, isUp, isLow, isDigitC]

/-! ### Dict lemmas -/

theorem dictGet_dictInsert {α : Type} (d : List (String × α)) (k k' : String) (v : α) :
    dictGet (dictInsert d k v) k' = if k == k' then some v else dictGet d k' := by
  induction d with
  | nil =>
    simp only [dictInsert, dictGet]
  | cons p d ih =>
    simp only [dictInsert]
    by_cases h1 : p.1 = k
    · subst h1
      simp only [beq_self_eq_true, if_true, dictGet]
      by_cases h2 : p.1 = k'
      · subst h2
        simp
      · simp [h2]
    · simp only [beq_iff_eq, h1, if_false, dictGet]
      by_cases h2 : p.1 = k'
      · subst h2
        have : ¬ (k = p.1) := fun h => h1 h.symm
        simp [this]
      · simp [h2, ih]

theorem mem_keys_of_dictGet_eq_some {α : Type} {d : List (String × α)}
    {k : String} {v : α} (h : dictGet d k = some v) : k ∈ d.map Prod.fst := by
  induction d with
  | nil => simp [dictGet] at h
  | cons p d ih =>
    simp only [dictGet] at h
    by_cases h1 : p.1 = k
    · simp [h1]
    · simp only [beq_iff_eq, h1, if_false] at h
      simp [ih h]

theorem dictGet_dictUpdate {α : Type} (e d : List (String × α)) (k : String)
    (hnodup : (e.map Prod.fst).Nodup) :
    dictGet (dictUpdate d e) k =
      match dictGet e k with
      | some v => some v
      | none => dictGet d k := by
  induction e generalizing d with
  | nil => simp [dictUpdate, dictGet]
  | cons p e ih =>
    simp only [List.map_cons, List.nodup_cons] at hnodup
    have step : dictUpdate d (p :: e) = dictUpdate (dictInsert d p.1 p.2) e := rfl
    rw [step, ih _ hnodup.2]
    simp only [dictGet]
    by_cases h1 : p.1 = k
    · subst h1
      have : dictGet e p.1 = none := by
        cases hg : dictGet e p.1 with
        | none => rfl
        | some v => exact absurd (mem_keys_of_dictGet_eq_some hg) hnodup.1
      simp [this, dictGet_dictInsert]
    · simp only [beq_iff_eq, h1, if_false]
      cases hg : dictGet e k with
      | none => simp [dictGet_dictInsert, h1]
      | some v => simp

/-! ### Runtime server theorems -/

theorem foldl_mergeStep_get {H S : Type} (modules : List (ToolModule H S))
    (acc : ToolModule H S) (k : String)
    (hnodup : ∀ m ∈ modules, (m.TOOL_HANDLERS.map Prod.fst).Nodup) :
    dictGet (modules.foldl mergeStep acc).TOOL_HANDLERS k
      = modules.foldl
          (fun a m =>
            match dictGet m.TOOL_HANDLERS k with
            | some v => some v
            | none => a)
          (dictGet acc.TOOL_HANDLERS k) := by
  induction modules generalizing acc with
  | nil => rfl
  | cons m ms ih =>
    have hm := hnodup m (by simp)
    have hms : ∀ x ∈ ms, (x.TOOL_HANDLERS.map Prod.fst).Nodup := fun x hx =>
      hnodup x (by simp [hx])
    simp only [List.foldl_cons]
    rw [ih _ hms]
    have hstep : dictGet (mergeStep acc m).TOOL_HANDLERS k
        = match dictGet m.TOOL_HANDLERS k with
          | some v => some v
          | none => dictGet acc.TOOL_HANDLERS k := by
      unfold mergeStep
      exact dictGet_dictUpdate _ _ _ hm
    rw [hstep]

/-- Claim C1 (amended): `_merge_registries` is plain `dict.update` of each
source into one accumulator, so for every tool name the merged table holds
the LAST source's binding; a later source silently overwrites an earlier
source's entry of the same name, and no collision error of any kind is
surfaced (the function is total and returns the merged dicts). -/
theorem merge_registries_last_writer_wins {H S : Type}
    (modules : List (ToolModule H S)) (k : String)
    (hnodup : ∀ m ∈ modules, (m.TOOL_HANDLERS.map Prod.fst).Nodup) :
    dictGet (_merge_registries modules).TOOL_HANDLERS k = lastBinding modules k := by
  unfold _merge_registries lastBinding
  rw [foldl_mergeStep_get _ _ _ hnodup]
  rfl

theorem merge_registries_last_writer_wins_witness :
    dictGet (_merge_registries (moduleList
        (⟨[("get_incidents", 1)], [], []⟩ : ToolModule Nat Nat)
        ⟨[("get_incidents", 2)], [], []⟩ none)).TOOL_HANDLERS "get_incidents"
      = lastBinding (moduleList
        (⟨[("get_incidents", 1)], [], []⟩ : ToolModule Nat Nat)
        ⟨[("get_incidents", 2)], [], []⟩ none) "get_incidents" :=
  merge_registries_last_writer_wins _ "get_incidents" (by decide)

/-- Claim C1 counterexample: with an xsiam registry binding
`"get_incidents"` to handler `1` and an xsoar registry binding the same
name to handler `2`, the merged dispatch table silently holds the later
source's handler `2`; the earlier binding is gone and no error was
raised, refuting "a later source's entry never silently shadows an
earlier source's entry" and "the collision is surfaced as a configuration
error". -/
theorem merge_registries_silent_shadowing :
    dictGet (_merge_registries (moduleList
        (⟨[("get_incidents", 1)], [], []⟩ : ToolModule Nat Nat)
        ⟨[("get_incidents", 2)], [], []⟩ none)).TOOL_HANDLERS "get_incidents" = some 2
    ∧ dictGet (_merge_registries (moduleList
        (⟨[("get_incidents", 1)], [], []⟩ : ToolModule Nat Nat)
        ⟨[("get_incidents", 2)], [], []⟩ none)).TOOL_HANDLERS "get_incidents" ≠ some 1 := by
  decide

/-- Claim C4: calling a tool name absent from the merged handler dict
returns a normal `CallOutcome.result` with a text content describing the
name as unknown, for every argument structure; in particular it is not a
`CallOutcome.raised`, so nothing propagates to the transport layer and
the protocol session stays alive. -/
theorem call_tool_unknown_tool_soft_result {V : Type}
    (TOOL_HANDLERS : List (String × Handler V)) (tool_name : String)
    (arguments : Option (List (String × V)))
    (h : dictGet TOOL_HANDLERS tool_name = none) :
    call_tool_handler TOOL_HANDLERS tool_name arguments
      = CallOutcome.result [⟨"text", "Unknown tool: " ++ tool_name⟩] := by
  unfold call_tool_handler
  rw [h]

theorem call_tool_unknown_tool_soft_result_witness :
    call_tool_handler (V := Nat) [] "run_xql_query" none
      = CallOutcome.result [⟨"text", "Unknown tool: run_xql_query"⟩] :=
  call_tool_unknown_tool_soft_result [] "run_xql_query" none rfl

/-- A demonstration handler that raises, the way a generated tool does on
an upstream HTTP non-2xx response (`response.raise_for_status()`). -/
def failingDemoHandler : Handler Nat := fun _ => Except.error "HTTP 500 Server Error"

/-- Claim C5: when the looked-up handler raises (any exception, including
upstream HTTP failures), `call_tool_handler` catches it and returns a
normal text result prefixed with `"ERROR: "`, rather than letting the
exception propagate (`CallOutcome.raised`) and terminate the session. -/
theorem call_tool_exception_caught {V : Type}
    (TOOL_HANDLERS : List (String × Handler V)) (tool_name : String)
    (arguments : Option (List (String × V))) (handler : Handler V) (exc : String)
    (hfound : dictGet TOOL_HANDLERS tool_name = some handler)
    (hraise : handler (arguments.getD []) = Except.error exc) :
    call_tool_handler TOOL_HANDLERS tool_name arguments
      = CallOutcome.result [⟨"text", "ERROR: " ++ exc⟩] := by
  unfold call_tool_handler
  rw [hfound]
  show (match handler (arguments.getD []) with
    | Except.ok r => CallOutcome.result r
    | Except.error e => CallOutcome.result [⟨"text", "ERROR: " ++ e⟩])
      = CallOutcome.result [⟨"text", "ERROR: " ++ exc⟩]
  rw [hraise]

theorem call_tool_exception_caught_witness :
    call_tool_handler [("get_incident", failingDemoHandler)] "get_incident" none
      = CallOutcome.result [⟨"text", "ERROR: HTTP 500 Server Error"⟩] :=
  call_tool_exception_caught [("get_incident", failingDemoHandler)] "get_incident" none
    failingDemoHandler "HTTP 500 Server Error" rfl rfl

/-- Claim C9: reading a URI not present in the `DOCS` registry (scanned
once at startup) raises `ValueError`, i.e. the request fails with an
`Except.error` and there is no `Except.ok` soft result -- unlike the
unknown-tool path of `call_tool_handler`, which returns a normal
`CallOutcome.result`. -/
theorem read_resource_unknown_uri_error
    (DOCS : List (String × String)) (fs : String → Except String String) (uri : String)
    (h : dictGet DOCS uri = none) :
    read_resource_handler DOCS fs uri = Except.error ("Unknown resource: " ++ uri)
    ∧ ∀ r : List ReadResourceContents, read_resource_handler DOCS fs uri ≠ Except.ok r := by
  have he : read_resource_handler DOCS fs uri
      = Except.error ("Unknown resource: " ++ uri) := by
    unfold read_resource_handler
    rw [h]
  exact ⟨he, fun r hr => by rw [he] at hr; exact Except.noConfusion hr⟩

theorem read_resource_unknown_uri_error_witness :
    read_resource_handler [("cortexsynapse-docs://README.md", "docs/README.md")]
        (fun _ => Except.ok "content") "cortexsynapse-docs://missing.md"
      = Except.error ("Unknown resource: " ++ "cortexsynapse-docs://missing.md") :=
  (read_resource_unknown_uri_error _ _ _ (by decide)).1

/-! ### Documentation generator theorems -/

theorem firstMatch_nil (fb n : String) : firstMatch [] fb n = fb := rfl

theorem firstMatch_cons (p : (String → Bool) × String)
    (t : List ((String → Bool) × String)) (fb n : String) :
    firstMatch (p :: t) fb n = if p.1 n then p.2 else firstMatch t fb n := by
  unfold firstMatch
  simp only [List.find?]
  cases h : p.1 n
  · simp [h]
  · simp [h]

/-- Claim C8 (amended): each per-source categorizer equals the
first-matching-predicate evaluation of its fixed ordered policy table
over the lowercased tool name -- with two deviations from the claim as
stated: the xsiam table's first predicate also consults the tool
description, and the fall-through category is `"Other Operations"` only
for the xsiam and xsoar sources; for the unified source it is
`"Unified Operations"`. -/
theorem categorize_first_matching_predicate (name description : String) :
    categorize_xsiam_tool name description
      = firstMatch (xsiamPolicy description) "Other Operations" (asciiLower name)
    ∧ categorize_xsoar_tool name
      = firstMatch xsoarPolicy "Other Operations" (asciiLower name)
    ∧ categorize_unified_tool name
      = firstMatch unifiedPolicy "Unified Operations" (asciiLower name) := by
  refine ⟨?_, ?_, ?_⟩ <;>
    simp only [categorize_xsiam_tool, categorize_xsoar_tool, categorize_unified_tool,
      xsiamPolicy, xsoarPolicy, unifiedPolicy, firstMatch_cons, firstMatch_nil]

/-- Claim C8 counterexample: the unified categorizer's fall-through
category is `"Unified Operations"`, not `"Other Operations"`: the tool
name `"reboot_server"` matches none of the unified keyword predicates
(`incident`, `script`, `automation`, `audit`) yet is not assigned
`"Other Operations"`. -/
theorem categorize_unified_fallthrough_not_other :
    categorize_unified_tool "reboot_server" = "Unified Operations"
    ∧ categorize_unified_tool "reboot_server" ≠ "Other Operations" := by
  decide

/-! ### Spec indexer theorems -/

/-- Claim C7 (spec-modelled): when the route is an exact-string key of
`paths` and the method is found under it by case-insensitive comparison,
`find_operation_in_spec` returns the matching operation augmented with the
method uppercased; when the route does not textually match any key, it
returns the not-found sentinel `none` (a normal outcome -- the function is
total and never errors). -/
theorem find_operation_in_spec_exact_route_ci_method {α : Type}
    (spec : OpenAPISpec α) (route method : String) :
    (∀ (pathItem : List (String × α)) (k : String) (op : α),
        dictGet spec.paths route = some pathItem →
        pathItem.find? (fun p => asciiLower p.1 == asciiLower method) = some (k, op) →
        find_operation_in_spec spec route method = some (op, asciiUpper method))
    ∧ (dictGet spec.paths route = none →
        find_operation_in_spec spec route method = none) := by
  constructor
  · intro pathItem k op h1 h2
    unfold find_operation_in_spec
    rw [h1]
    show (match pathItem.find? (fun p => asciiLower p.1 == asciiLower method) with
      | none => none
      | some p => some (p.2, asciiUpper method)) = some (op, asciiUpper method)
    rw [h2]
  · intro h
    unfold find_operation_in_spec
    rw [h]

theorem find_operation_in_spec_exact_route_ci_method_witness :
    find_operation_in_spec (⟨[("/items", [("get", "listItems")])]⟩ : OpenAPISpec String)
        "/items" "GET" = some ("listItems", "GET")
    ∧ find_operation_in_spec (⟨[("/items", [("get", "listItems")])]⟩ : OpenAPISpec String)
        "/missing" "GET" = none := by
  constructor
  · have h := (find_operation_in_spec_exact_route_ci_method
        (⟨[("/items", [("get", "listItems")])]⟩ : OpenAPISpec String) "/items" "GET").1
      [("get", "listItems")] "get" "listItems" (by decide) (by decide)
    rw [h]
    decide
  · exact (find_operation_in_spec_exact_route_ci_method
      (⟨[("/items", [("get", "listItems")])]⟩ : OpenAPISpec String) "/missing" "GET").2
      (by decide)

/-! ### Synthesized handler bucket theorems -/

theorem mem_dictInsert_self {α : Type} (d : List (String × α)) (k : String) (v : α) :
    (k, v) ∈ dictInsert d k v := by
  induction d with
  | nil => simp [dictInsert]
  | cons p t ih =>
    unfold dictInsert
    by_cases h : p.1 = k
    · simp [h]
    · simp only [beq_iff_eq, h, if_false]
      exact List.mem_cons_of_mem p ih

theorem mem_dictInsert_of_ne {α : Type} {d : List (String × α)} {k : String} {v : α}
    (k' : String) (v' : α) (h : (k, v) ∈ d) (hne : k ≠ k') :
    (k, v) ∈ dictInsert d k' v' := by
  induction d with
  | nil => cases h
  | cons p t ih =>
    unfold dictInsert
    by_cases hp : p.1 = k'
    · simp only [hp, beq_self_eq_true, if_true]
      rcases List.mem_cons.mp h with rfl | h'
      · exact absurd hp hne
      · exact List.mem_cons_of_mem _ h'
    · simp only [beq_iff_eq, hp, if_false]
      rcases List.mem_cons.mp h with rfl | h'
      · exact List.mem_cons_self _ _
      · exact List.mem_cons_of_mem _ (ih h')

theorem paramsFold_path_preserve {V : Type} (args : List (String × V))
    (l : List OAParam) (st : RequestBuckets V) {k : String} {v : V}
    (hmem : (k, v) ∈ st.path_params) (hk : ∀ q ∈ l, q.name ≠ k) :
    (k, v) ∈ (l.foldl (paramStep args) st).path_params := by
  induction l generalizing st with
  | nil => exact hmem
  | cons q t ih =>
    simp only [List.foldl_cons]
    apply ih
    · unfold paramStep
      cases harg : dictGet args (snakeName q.name) with
      | none => exact hmem
      | some v' =>
        simp only
        by_cases h1 : (q.inLoc.getD "query") == "path"
        · simp only [h1, if_true]
          exact mem_dictInsert_of_ne _ _ hmem fun he =>
            hk q (List.mem_cons_self _ _) (he ▸ rfl)
        · simp only [h1, Bool.false_eq_true, if_false]
          by_cases h2 : (q.inLoc.getD "query") == "query"
          · simp only [h2, if_true]
            exact hmem
          · simp only [h2, Bool.false_eq_true, if_false]
            exact hmem
    · exact fun q' hq' => hk q' (List.mem_cons_of_mem _ hq')

theorem paramsFold_query_preserve {V : Type} (args : List (String × V))
    (l : List OAParam) (st : RequestBuckets V) {k : String} {v : V}
    (hmem : (k, v) ∈ st.params) (hk : ∀ q ∈ l, q.name ≠ k) :
    (k, v) ∈ (l.foldl (paramStep args) st).params := by
  induction l generalizing st with
  | nil => exact hmem
  | cons q t ih =>
    simp only [List.foldl_cons]
    apply ih
    · unfold paramStep
      cases harg : dictGet args (snakeName q.name) with
      | none => exact hmem
      | some v' =>
        simp only
        by_cases h1 : (q.inLoc.getD "query") == "path"
        · simp only [h1, if_true]
          exact hmem
        · simp only [h1, Bool.false_eq_true, if_false]
          by_cases h2 : (q.inLoc.getD "query") == "query"
          · simp only [h2, if_true]
            exact mem_dictInsert_of_ne _ _ hmem fun he =>
              hk q (List.mem_cons_self _ _) (he ▸ rfl)
          · simp only [h2, Bool.false_eq_true, if_false]
            exact hmem
    · exact fun q' hq' => hk q' (List.mem_cons_of_mem _ hq')

theorem paramsFold_mem_path {V : Type} (args : List (String × V))
    (l : List OAParam) (st : RequestBuckets V) (p : OAParam) {v : V}
    (hmem : p ∈ l) (hnodup : (l.map OAParam.name).Nodup)
    (harg : dictGet args (snakeName p.name) = some v)
    (hloc : p.inLoc.getD "query" = "path") :
    (p.name, v) ∈ (l.foldl (paramStep args) st).path_params := by
  induction l generalizing st with
  | nil => cases hmem
  | cons q t ih =>
    simp only [List.map_cons, List.nodup_cons] at hnodup
    simp only [List.foldl_cons]
    rcases List.mem_cons.mp hmem with rfl | h'
    · apply paramsFold_path_preserve
      · unfold paramStep
        rw [harg]
        simp only [hloc, beq_self_eq_true, if_true]
        exact mem_dictInsert_self _ _ _
      · intro q' hq' heq
        exact hnodup.1 (heq ▸ List.mem_map_of_mem OAParam.name hq')
    · exact ih _ h' hnodup.2

theorem paramsFold_mem_query {V : Type} (args : List (String × V))
    (l : List OAParam) (st : RequestBuckets V) (p : OAParam) {v : V}
    (hmem : p ∈ l) (hnodup : (l.map OAParam.name).Nodup)
    (harg : dictGet args (snakeName p.name) = some v)
    (hloc : p.inLoc.getD "query" = "query") :
    (p.name, v) ∈ (l.foldl (paramStep args) st).params := by
  induction l generalizing st with
  | nil => cases hmem
  | cons q t ih =>
    simp only [List.map_cons, List.nodup_cons] at hnodup
    simp only [List.foldl_cons]
    rcases List.mem_cons.mp hmem with rfl | h'
    · apply paramsFold_query_preserve
      · unfold paramStep
        rw [harg]
        simp only [hloc]
        simp only [show (("query" : String) == "path") = false from rfl,
          Bool.false_eq_true, if_false, beq_self_eq_true, if_true]
        exact mem_dictInsert_self _ _ _
      · intro q' hq' heq
        exact hnodup.1 (heq ▸ List.mem_map_of_mem OAParam.name hq')
    · exact ih _ h' hnodup.2

theorem bodyFold_path_params_eq {V : Type} (args : List (String × V))
    (props : List String) (st : RequestBuckets V) :
    (props.foldl (bodyStep args) st).path_params = st.path_params := by
  induction props generalizing st with
  | nil => rfl
  | cons a t ih =>
    simp only [List.foldl_cons]
    rw [ih]
    unfold bodyStep
    cases dictGet args (snakeName a) <;> rfl

theorem bodyFold_params_eq {V : Type} (args : List (String × V))
    (props : List String) (st : RequestBuckets V) :
    (props.foldl (bodyStep args) st).params = st.params := by
  induction props generalizing st with
  | nil => rfl
  | cons a t ih =>
    simp only [List.foldl_cons]
    rw [ih]
    unfold bodyStep
    cases dictGet args (snakeName a) <;> rfl

/-- Claim C6 (amended): for every declared parameter whose `in` is `path`
or `query` (an absent `in` defaults to `query`), a present argument value
is placed into the matching `path_params` or `params` bucket of the one
outbound request, keyed by the parameter's original wire name.  Header
parameters are NOT covered: the generated prologue has no header branch
and no header bucket, so their values are dropped.  Distinct wire names
are assumed, matching the dict semantics of the generated code. -/
theorem handlerPrologue_param_buckets {V : Type} (parameters : List OAParam)
    (bodyProps : List String) (args : List (String × V)) (p : OAParam) (v : V)
    (hmem : p ∈ parameters) (hnodup : (parameters.map OAParam.name).Nodup)
    (harg : dictGet args (snakeName p.name) = some v) :
    (p.inLoc.getD "query" = "path" →
      (p.name, v) ∈ (handlerPrologue parameters bodyProps args).path_params)
    ∧ (p.inLoc.getD "query" = "query" →
      (p.name, v) ∈ (handlerPrologue parameters bodyProps args).params) := by
  unfold handlerPrologue
  constructor
  · intro hloc
    rw [bodyFold_path_params_eq]
    exact paramsFold_mem_path args parameters _ p hmem hnodup harg hloc
  · intro hloc
    rw [bodyFold_params_eq]
    exact paramsFold_mem_query args parameters _ p hmem hnodup harg hloc

theorem handlerPrologue_param_buckets_witness :
    ("alertId", 5) ∈ (handlerPrologue [⟨"alertId", some "path"⟩] []
        [("alert_id", (5 : Nat))]).path_params := by
  have harg : dictGet [("alert_id", (5 : Nat))] (snakeName "alertId") = some 5 := by
    rw [show snakeName "alertId" = "alert_id" from by
      simp [snakeName, to_snake_case, strCodes, sub1, sub2, toLowC, isUp, isLow, isDigitC]]
    decide
  exact (handlerPrologue_param_buckets [⟨"alertId", some "path"⟩] []
      [("alert_id", (5 : Nat))] ⟨"alertId", some "path"⟩ 5 (by decide) (by decide) harg).1 rfl

/-- Claim C6 counterexample: a declared header parameter (`in: header`,
wire name `"X-Token"`) whose argument IS present (the generated python
parameter is `snakeName "X-Token"`) lands in no bucket at all: the
prologue returns empty `params`, `body` and `path_params`, so the value
is absent from the outbound request -- there is no header bucket to place
it in. -/
theorem handlerPrologue_header_dropped :
    handlerPrologue [⟨"X-Token", some "header"⟩] []
        [(snakeName "X-Token", (7 : Nat))] = ⟨[], [], []⟩ := by
  simp [handlerPrologue, paramStep, dictGet]

/-! ### Tool emission theorems -/

theorem assoc_nodup_value_unique {α : Type} {l : List (String × α)}
    (h : (l.map Prod.fst).Nodup) {k : String} {a b : α}
    (ha : (k, a) ∈ l) (hb : (k, b) ∈ l) : a = b := by
  induction l with
  | nil => cases ha
  | cons p t ih =>
    simp only [List.map_cons, List.nodup_cons] at h
    rcases List.mem_cons.mp ha with rfl | ha'
    · rcases List.mem_cons.mp hb with hb' | hb'
      · exact (Prod.mk.injEq .. ▸ hb'.symm).2
      · exact absurd (List.mem_map_of_mem Prod.fst hb') h.1
    · rcases List.mem_cons.mp hb with rfl | hb'
      · exact absurd (List.mem_map_of_mem Prod.fst ha') h.1
      · exact ih h.2 ha' hb'

/-- Claim C10: inside `generate_tools_file`, for every route under `paths`
and every method of `["get", "post", "put", "patch", "delete"]` defined in
its path item, a tool function is emitted if and only if the operation's
`operationId` is present and non-empty (`if operation_id:`); operations
failing the test are skipped with no diagnostic (the skip branch appends
and prints nothing). -/
theorem generate_tools_file_emits_iff
    (paths : List (String × List (String × GOperation)))
    (route : String) (pathItem : List (String × GOperation)) (m : String)
    (operation : GOperation)
    (hkeys : (paths.map Prod.fst).Nodup)
    (hroute : (route, pathItem) ∈ paths)
    (hm : m ∈ httpMethods)
    (hop : dictGet pathItem m = some operation) :
    (∃ oid, operation.operationId = some oid ∧ oid ≠ "")
      ↔ ∃ oid, (oid, m, route) ∈ generate_tools_file_emitted paths := by
  constructor
  · rintro ⟨oid, hoid, hne⟩
    refine ⟨oid, ?_⟩
    unfold generate_tools_file_emitted
    rw [List.mem_flatMap]
    refine ⟨(route, pathItem), hroute, ?_⟩
    rw [List.mem_filterMap]
    refine ⟨m, hm, ?_⟩
    simp only [hop, hoid]
    rw [if_neg hne]
  · rintro ⟨oid, hmem⟩
    unfold generate_tools_file_emitted at hmem
    rw [List.mem_flatMap] at hmem
    obtain ⟨pi, hpi, hmem2⟩ := hmem
    rw [List.mem_filterMap] at hmem2
    obtain ⟨m', hm', heq⟩ := hmem2
    split at heq
    · exact Option.noConfusion heq
    · rename_i op' hg
      split at heq
      · exact Option.noConfusion heq
      · rename_i oid' hi
        split at heq
        · exact Option.noConfusion heq
        · rename_i hempty
          injection heq with heq'
          simp only [Prod.mk.injEq] at heq'
          obtain ⟨rfl, rfl, h3⟩ := heq'
          have hpair : (route, pi.2) ∈ paths := by
            rw [← h3]
            exact (Prod.mk.eta ▸ hpi)
          have hpi2 : pi.2 = pathItem := assoc_nodup_value_unique hkeys hpair hroute
          rw [hpi2] at hg
          rw [hop] at hg
          injection hg with hg'
          refine ⟨oid', ?_, hempty⟩
          rw [hg']
          exact hi

theorem generate_tools_file_emits_iff_witness :
    ∃ oid, (oid, "get", "/items") ∈ generate_tools_file_emitted
        [("/items", [("get", ⟨some "listItems"⟩), ("post", ⟨none⟩)])] :=
  (generate_tools_file_emits_iff
      [("/items", [("get", ⟨some "listItems"⟩), ("post", ⟨none⟩)])]
      "/items" [("get", ⟨some "listItems"⟩), ("post", ⟨none⟩)] "get" ⟨some "listItems"⟩
      (by decide) (by decide) (by decide) (by decide)).mp
    ⟨"listItems", rfl, by decide⟩

end CortexMCP
